import Mathlib

/-!
Verification of the semantic analyzer of ph7000/semantic-analyzer.

The definitions below are a shallow embedding of the C++ sources:
`src/semantic_analyzer.cpp` (the walker) and `src/astnode.hpp` (the
scope machinery and the AST node classes).  Exceptions are modelled by
results that carry the analyzer state at the point of the throw, since
the C++ member fields keep their values while a `SemanticException`
or `std::runtime_error` propagates out of `analyze()`.
-/

namespace SemAn

/-- `DataType` from `data_type.hpp` (used throughout `semantic_analyzer.cpp`):
the four-element lattice Int, Float, Bool and the Unit sentinel `IOTA`. -/
inductive DataType where
  | INT
  | FLOAT
  | BOOL
  | IOTA
deriving DecidableEq, Repr

/-- `SymbolKind` from `src/astnode.hpp`. -/
inductive SymbolKind where
  | VARIABLE
  | CONSTANT
  | FUNCTION
deriving DecidableEq, Repr

/-- `SymbolInfo` from `src/astnode.hpp`. -/
structure SymbolInfo where
  name : String
  type : DataType
  kind : SymbolKind
  isConstant : Bool
  paramTypes : List DataType
  returnType : DataType
deriving DecidableEq, Repr

/-- The four-argument `SymbolInfo` constructor of `src/astnode.hpp`
(`paramTypes` empty, `returnType = IOTA`). -/
def SymbolInfo.mkVar (n : String) (t : DataType) (k : SymbolKind) (constant : Bool) :
    SymbolInfo :=
  { name := n, type := t, kind := k, isConstant := constant,
    paramTypes := [], returnType := DataType.IOTA }

/-- One `Scope`'s `table` (`src/astnode.hpp`): a name-keyed map, modelled as an
association list whose keys are unique (insertion is insert-if-absent). -/
def Frame := List (String × SymbolInfo)
deriving DecidableEq, Repr

/-- `Scope::existsLocal` (`src/astnode.hpp`): membership in this scope only. -/
def existsLocal (f : Frame) (n : String) : Bool :=
  f.any (fun p => p.1 = n)

/-- `Scope::lookupLocal` (`src/astnode.hpp`): find in this scope only. -/
def lookupLocal (f : Frame) (n : String) : Option SymbolInfo :=
  (f.find? (fun p => p.1 = n)).map (·.2)

/-- `Scope::addSymbol` (`src/astnode.hpp`): insert-if-absent; `none` when the
name is already present in this scope (the C++ method returns `false` and
leaves the table unchanged). -/
def addSymbol (f : Frame) (n : String) (s : SymbolInfo) : Option Frame :=
  if existsLocal f n then none else some ((n, s) :: f)

/-- `Scope::lookup` (`src/astnode.hpp`) over the scope chain: consult this
scope, then walk parents to the root; the first hit wins.  The head of the
list is the current (innermost) scope. -/
def lookupChain : List Frame → String → Option SymbolInfo
  | [], _ => none
  | f :: rest, n =>
    match lookupLocal f n with
    | some s => some s
    | none => lookupChain rest n

/-- `SemanticErrorType` (used in `src/semantic_analyzer.cpp`). -/
inductive SemanticErrorType where
  | REDECLARED_FUNCTION
  | REDECLARED_IDENTIFIER
  | UNDECLARED_IDENTIFIER
  | UNDECLARED_FUNCTION
  | FUNCTION_USED_AS_VARIABLE
  | NOT_A_FUNCTION
  | VAR_DECL_TYPE_MISMATCH
  | VAR_ASSIGN_TYPE_MISMATCH
  | VAR_ASSIGN_TO_CONSTANT
  | WRONG_NUMBER_OF_ARGUMENTS
  | INVALID_SIGNATURE
  | INVALID_BINARY_OPERATION
  | INVALID_UNARY_OPERATION
  | CONDITION_NOT_BOOL
  | RETURN_TYPE_MISMATCH
  | RETURN_OUTSIDE_FUNCTION
  | MISSING_RETURN
  | UNREACHABLE_CODE
deriving DecidableEq, Repr

/-- `SemanticErrorContext` payloads, one constructor per factory used in
`src/semantic_analyzer.cpp`. -/
inductive SemanticErrorContext where
  | none
  | identifier (name : String)
  | function (name : String)
  | identifierTypeMismatch (name : String) (declared actual : DataType)
  | returnTypeMismatch (functionName : String) (expected actual : DataType)
  | actualType (t : DataType)
  | argCount (name : String) (expected actual : Nat)
  | signature (name : String) (expected actual : List DataType)
  | invalidOperationBetweenTypes (op : String) (left right : DataType)
deriving DecidableEq, Repr

/-- A raised error: either a `SemanticException` (the user-program diagnostic
taxonomy) or a `std::runtime_error` (an internal invariant failure). -/
inductive AnalyzerError where
  | semantic (e : SemanticErrorType) (ctx : SemanticErrorContext)
  | internal (msg : String)
deriving DecidableEq, Repr

/-- The walker's mutable fields (`src/semantic_analyzer.hpp`): the scope chain
(head = `currentScope`, tail = its parents) and the four context fields. -/
structure AnalyzerState where
  scopes : List Frame
  currentFunction : String
  currentFunctionReturnType : DataType
  hasReturn : Bool
  isUnreachable : Bool
deriving DecidableEq, Repr

/-- Result of a statement-level analysis step.  An `err` carries the state at
the moment of the throw: the C++ member fields keep their values while the
exception propagates. -/
inductive AnalyzeResult where
  | ok (s : AnalyzerState)
  | err (e : AnalyzerError) (s : AnalyzerState)
deriving DecidableEq, Repr

/-- `SemanticAnalyzer::isNumericType`. -/
def isNumericType (t : DataType) : Bool :=
  t = DataType.INT || t = DataType.FLOAT

/-- `SemanticAnalyzer::isComparable`. -/
def isComparable (t : DataType) : Bool :=
  t = DataType.INT || t = DataType.FLOAT || t = DataType.BOOL

/-- `SemanticAnalyzer::isAssignmentCompatible` (`src/semantic_analyzer.cpp`
lines 51-75). -/
def isAssignmentCompatible (target source : DataType) : Bool :=
  if target = source then true
  else if target = DataType.BOOL && source = DataType.INT then true
  else if target = DataType.FLOAT && source = DataType.INT then true
  else if target = DataType.INT && source = DataType.BOOL then true
  else false

/-- Expression nodes (`src/astnode.hpp`), the variants consumed by
`SemanticAnalyzer::analyzeExpr`.  The float literal's numeric value is never
consulted by the analyzer, so it carries no payload here. -/
inductive Expr where
  | intLit (v : Int)
  | floatLit
  | boolLit (v : Bool)
  | ident (name : String)
  | binOp (left : Expr) (op : String) (right : Expr)
  | unOp (op : String) (operand : Expr)
  | call (functionName : String) (args : List Expr)
deriving Repr

mutual

/-- `SemanticAnalyzer::analyzeExpr` (`src/semantic_analyzer.cpp` lines
457-600).  Expression analysis reads the scope chain and mutates nothing,
so it takes only the scopes and returns the type or the thrown error. -/
def analyzeExpr (scopes : List Frame) : Expr → Except AnalyzerError DataType
  | .intLit _ => .ok DataType.INT
  | .floatLit => .ok DataType.FLOAT
  | .boolLit _ => .ok DataType.BOOL
  | .ident n =>
    match lookupChain scopes n with
    | Option.none =>
      .error (.semantic .UNDECLARED_IDENTIFIER (.identifier n))
    | some symbol =>
      if symbol.kind = SymbolKind.FUNCTION then
        .error (.semantic .FUNCTION_USED_AS_VARIABLE (.function n))
      else
        .ok symbol.type
  | .binOp l op r => do
    let leftType ← analyzeExpr scopes l
    let rightType ← analyzeExpr scopes r
    if op = "+" || op = "-" || op = "*" || op = "/" then
      if !(isNumericType leftType) || !(isNumericType rightType) then
        .error (.semantic .INVALID_BINARY_OPERATION
          (.invalidOperationBetweenTypes op leftType rightType))
      else if leftType = DataType.FLOAT || rightType = DataType.FLOAT then
        .ok DataType.FLOAT
      else
        .ok DataType.INT
    else if op = "<" || op = ">" || op = "<=" || op = ">=" then
      if !(isNumericType leftType) || !(isNumericType rightType) then
        .error (.semantic .INVALID_BINARY_OPERATION
          (.invalidOperationBetweenTypes op leftType rightType))
      else
        .ok DataType.BOOL
    else if op = "==" || op = "!=" then
      if leftType ≠ rightType then
        .error (.semantic .INVALID_BINARY_OPERATION
          (.invalidOperationBetweenTypes op leftType rightType))
      else
        .ok DataType.BOOL
    else
      -- no operator branch matched: control falls through to the final
      -- `return DataType::IOTA` of analyzeExpr
      .ok DataType.IOTA
  | .unOp op operand => do
    let operandType ← analyzeExpr scopes operand
    if op = "-" then
      if !(isNumericType operandType) then
        .error (.semantic .INVALID_UNARY_OPERATION (.actualType operandType))
      else
        .ok operandType
    else
      -- falls through to `return DataType::IOTA`
      .ok DataType.IOTA
  | .call fname args =>
    match lookupChain scopes fname with
    | Option.none =>
      .error (.semantic .UNDECLARED_FUNCTION (.function fname))
    | some symbol =>
      if symbol.kind ≠ SymbolKind.FUNCTION then
        .error (.semantic .NOT_A_FUNCTION (.identifier fname))
      else if args.length ≠ symbol.paramTypes.length then
        .error (.semantic .WRONG_NUMBER_OF_ARGUMENTS
          (.argCount fname symbol.paramTypes.length args.length))
      else do
        let _ ← analyzeCallArgs scopes fname symbol.paramTypes
          symbol.paramTypes args []
        .ok symbol.returnType

/-- The argument loop of the `FunctionCallNode` case (`src/semantic_analyzer.cpp`
lines 578-594): type each argument, append its type to the accumulator
`actualTypes`, and at the first incompatible pair throw `INVALID_SIGNATURE`
carrying the full expected list and the accumulator built so far. -/
def analyzeCallArgs (scopes : List Frame) (fname : String)
    (expectedAll : List DataType) :
    List DataType → List Expr → List DataType →
      Except AnalyzerError (List DataType)
  | _, [], acc => .ok acc
  | [], _, acc => .ok acc
  | p :: ps, a :: rest, acc => do
    let argType ← analyzeExpr scopes a
    let acc' := acc ++ [argType]
    if !(isAssignmentCompatible p argType) then
      .error (.semantic .INVALID_SIGNATURE (.signature fname expectedAll acc'))
    else
      analyzeCallArgs scopes fname expectedAll ps rest acc'

end

mutual

/-- The statement variants of the `*StmtNode` family (`src/astnode.hpp`)
dispatched by `SemanticAnalyzer::analyzeStmt`, plus the alternate statement
family (`IfNode`, `WhileNode`, `ReturnNode`, `PrintNode`, `AssignmentNode`).
The analyzer's block walk dispatches on the variant only and never reads the
alternate nodes' fields, so those constructors carry no payload here. -/
inductive Stmt where
  | assignment (variableName : String) (value : Expr)
  | ret (value : Option Expr)
  | printStmt (expression : Expr)
  | ifStmt (condition : Expr) (thenItems elseItems : List Item)
  | whileStmt (condition : Expr) (bodyItems : List Item)
  | altIf
  | altWhile
  | altReturn
  | altPrint
  | altAssignment

/-- A code item as found in a block's `std::vector<ASTNode*>`: a nested
function declaration, a variable/constant declaration, or a statement. -/
inductive Item where
  | funcDecl (name : String) (parameters : List (String × DataType))
      (returnType : DataType) (bodyItems : List Item)
  | varDecl (isConstant : Bool) (name : String) (declaredType : DataType)
      (initializer : Option Expr)
  | stmt (s : Stmt)

end

/-- `SemanticAnalyzer::isTerminator` (`src/semantic_analyzer.cpp` lines
622-625): only a `ReturnStmtNode` is a terminator. -/
def isTerminator : Item → Bool
  | .stmt (.ret _) => true
  | _ => false

mutual

/-- `SemanticAnalyzer::checkPathsReturn` (`src/semantic_analyzer.cpp` lines
602-620): the syntactic definite-return check.  The loop returns `true` as
soon as one item passes the loop body's tests, and `false` when the loop
ends. -/
def checkPathsReturn : List Item → Bool
  | [] => false
  | item :: rest =>
    if checkItemReturns item then true else checkPathsReturn rest

/-- The body of the `checkPathsReturn` loop: the two early-return tests
(`dynamic_cast<ReturnStmtNode*>` and the if-with-else recursion). -/
def checkItemReturns : Item → Bool
  | .stmt s => checkStmtReturns s
  | _ => false

/-- The statement-level tests of the `checkPathsReturn` loop body. -/
def checkStmtReturns : Stmt → Bool
  | .ret _ => true
  | .ifStmt _ thenItems elseItems =>
    !elseItems.isEmpty && checkPathsReturn thenItems
      && checkPathsReturn elseItems
  | _ => false

end

/-- `SemanticAnalyzer::analyzeVarDecl` (`src/semantic_analyzer.cpp` lines
183-236). -/
def analyzeVarDecl (σ : AnalyzerState) (isConstant : Bool) (name : String)
    (declaredType : DataType) (initializer : Option Expr) : AnalyzeResult :=
  if σ.isUnreachable then
    .err (.semantic .UNREACHABLE_CODE .none) σ
  else
    match σ.scopes with
    | [] => .ok σ
    | f :: rest =>
      if existsLocal f name then
        match lookupLocal f name with
        | some existing =>
          if existing.kind = SymbolKind.FUNCTION then
            .err (.semantic .REDECLARED_FUNCTION (.function name)) σ
          else
            .err (.semantic .REDECLARED_IDENTIFIER (.identifier name)) σ
        | Option.none =>
          .err (.semantic .REDECLARED_IDENTIFIER (.identifier name)) σ
      else
        let withInit : Except AnalyzerError Unit :=
          match initializer with
          | Option.none => .ok ()
          | some init => do
            let initType ← analyzeExpr σ.scopes init
            if !(isAssignmentCompatible declaredType initType) then
              .error (.semantic .VAR_DECL_TYPE_MISMATCH
                (.identifierTypeMismatch name declaredType initType))
            else
              .ok ()
        match withInit with
        | .error e => .err e σ
        | .ok _ =>
          .ok { σ with scopes :=
            ((name, SymbolInfo.mkVar name declaredType SymbolKind.VARIABLE
              isConstant) :: f) :: rest }

/-- `SemanticAnalyzer::analyzeAssignment` (`src/semantic_analyzer.cpp` lines
253-299). -/
def analyzeAssignment (σ : AnalyzerState) (variableName : String)
    (value : Expr) : AnalyzeResult :=
  if σ.isUnreachable then
    .err (.semantic .UNREACHABLE_CODE .none) σ
  else
    match lookupChain σ.scopes variableName with
    | Option.none =>
      .err (.semantic .UNDECLARED_IDENTIFIER (.identifier variableName)) σ
    | some symbol =>
      if symbol.kind = SymbolKind.FUNCTION then
        .err (.semantic .FUNCTION_USED_AS_VARIABLE (.function variableName)) σ
      else if symbol.isConstant then
        .err (.semantic .VAR_ASSIGN_TO_CONSTANT (.identifier variableName)) σ
      else
        match analyzeExpr σ.scopes value with
        | .error e => .err e σ
        | .ok valueType =>
          if !(isAssignmentCompatible symbol.type valueType) then
            .err (.semantic .VAR_ASSIGN_TYPE_MISMATCH
              (.identifierTypeMismatch variableName symbol.type valueType)) σ
          else
            .ok σ

/-- `SemanticAnalyzer::analyzeReturn` (`src/semantic_analyzer.cpp` lines
301-342). -/
def analyzeReturn (σ : AnalyzerState) (value : Option Expr) : AnalyzeResult :=
  if σ.isUnreachable then
    .err (.semantic .UNREACHABLE_CODE .none) σ
  else if σ.currentFunction = "" then
    .err (.semantic .RETURN_OUTSIDE_FUNCTION .none) σ
  else
    let checked : Except AnalyzerError Unit :=
      match value with
      | some v => do
        let returnType ← analyzeExpr σ.scopes v
        if !(isAssignmentCompatible σ.currentFunctionReturnType returnType) then
          .error (.semantic .RETURN_TYPE_MISMATCH
            (.returnTypeMismatch σ.currentFunction
              σ.currentFunctionReturnType returnType))
        else
          .ok ()
      | Option.none =>
        if σ.currentFunctionReturnType ≠ DataType.IOTA then
          .error (.semantic .RETURN_TYPE_MISMATCH
            (.returnTypeMismatch σ.currentFunction
              σ.currentFunctionReturnType DataType.IOTA))
        else
          .ok ()
    match checked with
    | .error e => .err e σ
    | .ok _ => .ok { σ with hasReturn := true, isUnreachable := true }

/-- `SemanticAnalyzer::analyzePrint` (`src/semantic_analyzer.cpp` lines
344-354). -/
def analyzePrint (σ : AnalyzerState) (expression : Expr) : AnalyzeResult :=
  if σ.isUnreachable then
    .err (.semantic .UNREACHABLE_CODE .none) σ
  else
    match analyzeExpr σ.scopes expression with
    | .error e => .err e σ
    | .ok _ => .ok σ

/-- The parameter-insertion loop of `SemanticAnalyzer::analyzeFunctionDecl`
(`src/semantic_analyzer.cpp` lines 144-160).  On a duplicate parameter name
the thrown error carries the partially filled function scope. -/
def insertParams (f : Frame) :
    List (String × DataType) → Except (AnalyzerError × Frame) Frame
  | [] => .ok f
  | (n, t) :: rest =>
    if existsLocal f n then
      .error (.semantic .REDECLARED_IDENTIFIER (.identifier n), f)
    else
      insertParams ((n, SymbolInfo.mkVar n t SymbolKind.VARIABLE false) :: f)
        rest

/-- Result of the block-item loop: a normal exit additionally yields the
local `blockUnreachable` flag at loop end. -/
inductive LoopResult where
  | ok (s : AnalyzerState) (blockUnreachable : Bool)
  | err (e : AnalyzerError) (s : AnalyzerState)
deriving DecidableEq, Repr

/-- The state with which `SemanticAnalyzer::analyzeFunctionDecl`
(`src/semantic_analyzer.cpp` lines 128-142) enters the function body: a
pushed child scope holding `f` and the four context fields replaced. -/
def funcEntryState (σ : AnalyzerState) (name : String)
    (returnType : DataType) (f : Frame) : AnalyzerState :=
  { scopes := f :: σ.scopes
    currentFunction := name
    currentFunctionReturnType := returnType
    hasReturn := false
    isUnreachable := false }

/-- The restore block at the end of `SemanticAnalyzer::analyzeFunctionDecl`
(`src/semantic_analyzer.cpp` lines 175-180), executed only on the normal
exit path. -/
def funcRestore (entry exit₁ : AnalyzerState) : AnalyzerState :=
  { exit₁ with
      scopes := entry.scopes
      currentFunction := entry.currentFunction
      currentFunctionReturnType := entry.currentFunctionReturnType
      hasReturn := entry.hasReturn
      isUnreachable := entry.isUnreachable }

mutual

/-- `SemanticAnalyzer::analyzeStmt` (`src/semantic_analyzer.cpp` lines
239-251) together with the inlined bodies of `analyzeIf` (lines 357-393) and
`analyzeWhile` (lines 396-416); the `analyzeBlock(·, true)` calls of those
two appear here as a pushed empty scope around the item loop followed by the
restore of the saved scope.  A statement matching none of the five
`dynamic_cast`s — in particular any alternate-family node — falls through
the cast chain and the function returns having done nothing. -/
def analyzeStmt (σ : AnalyzerState) : Stmt → AnalyzeResult
  | .assignment variableName value => analyzeAssignment σ variableName value
  | .ret value => analyzeReturn σ value
  | .printStmt expression => analyzePrint σ expression
  | .ifStmt condition thenItems elseItems =>
    -- SemanticAnalyzer::analyzeIf
    if σ.isUnreachable then
      .err (.semantic .UNREACHABLE_CODE .none) σ
    else
      match analyzeExpr σ.scopes condition with
      | .error e => .err e σ
      | .ok condType =>
        if condType ≠ DataType.BOOL then
          .err (.semantic .CONDITION_NOT_BOOL (.actualType condType)) σ
        else
          let prevUnreachable := σ.isUnreachable
          match analyzeItems { σ with scopes := [] :: σ.scopes }
              thenItems false with
          | .err e s => .err e s
          | .ok σt _ =>
            let σ₁ := { σt with scopes := σ.scopes }
            let thenUnreachable := σ₁.isUnreachable
            let σ₂ := { σ₁ with isUnreachable := prevUnreachable }
            if elseItems.isEmpty then
              .ok { σ₂ with isUnreachable := prevUnreachable }
            else
              match analyzeItems { σ₂ with scopes := [] :: σ₂.scopes }
                  elseItems false with
              | .err e s => .err e s
              | .ok σe _ =>
                let σ₃ := { σe with scopes := σ₂.scopes }
                let elseUnreachable := σ₃.isUnreachable
                if thenUnreachable && elseUnreachable then
                  .ok { σ₃ with isUnreachable := true }
                else
                  .ok { σ₃ with isUnreachable := prevUnreachable }
  | .whileStmt condition bodyItems =>
    -- SemanticAnalyzer::analyzeWhile
    if σ.isUnreachable then
      .err (.semantic .UNREACHABLE_CODE .none) σ
    else
      match analyzeExpr σ.scopes condition with
      | .error e => .err e σ
      | .ok condType =>
        if condType ≠ DataType.BOOL then
          .err (.semantic .CONDITION_NOT_BOOL (.actualType condType)) σ
        else
          let prevUnreachable := σ.isUnreachable
          match analyzeItems { σ with scopes := [] :: σ.scopes }
              bodyItems false with
          | .err e s => .err e s
          | .ok σb _ =>
            .ok { σb with scopes := σ.scopes, isUnreachable := prevUnreachable }
  | .altIf => .ok σ
  | .altWhile => .ok σ
  | .altReturn => .ok σ
  | .altPrint => .ok σ
  | .altAssignment => .ok σ

/-- The item loop of `SemanticAnalyzer::analyzeBlock`
(`src/semantic_analyzer.cpp` lines 428-449): before each item the local
`blockUnreachable` flag is consulted and `UNREACHABLE_CODE` is thrown when it
is set; after a terminator statement both the local flag and the walker's
`isUnreachable` are set.  The `FunctionDeclNode` case carries the inlined
body of `analyzeFunctionDecl` (lines 127-181): push a child scope, replace
the four context fields, insert the parameters, analyze the body without a
further scope, run the definite-return gate, and restore scope and context
on the normal exit path only. -/
def analyzeItems (σ : AnalyzerState) :
    List Item → Bool → LoopResult
  | [], blockUnreachable => .ok σ blockUnreachable
  | item :: rest, blockUnreachable =>
    if blockUnreachable then
      .err (.semantic .UNREACHABLE_CODE .none) σ
    else
      match item with
      | .funcDecl n ps ret body =>
        -- SemanticAnalyzer::analyzeFunctionDecl
        match insertParams [] ps with
        | .error (e, fpart) => .err e (funcEntryState σ n ret fpart)
        | .ok f =>
          match analyzeItems (funcEntryState σ n ret f) body false with
          | .err e s => .err e s
          | .ok σ₁ _ =>
            if ret = DataType.IOTA then
              analyzeItems (funcRestore σ σ₁) rest blockUnreachable
            else if checkPathsReturn body then
              analyzeItems (funcRestore σ σ₁) rest blockUnreachable
            else
              .err (.semantic .MISSING_RETURN (.function n)) σ₁
      | .varDecl c n t init =>
        match analyzeVarDecl σ c n t init with
        | .err e s => .err e s
        | .ok σ' => analyzeItems σ' rest blockUnreachable
      | .stmt s =>
        match analyzeStmt σ s with
        | .err e st => .err e st
        | .ok σ' =>
          if isTerminator (.stmt s) then
            analyzeItems { σ' with isUnreachable := true } rest true
          else
            analyzeItems σ' rest blockUnreachable

end

/-- `SemanticAnalyzer::analyzeBlock` (`src/semantic_analyzer.cpp` lines
419-454): optionally push a child scope, run the item loop, and on normal
exit restore the saved scope when one was pushed. -/
def analyzeBlock (σ : AnalyzerState) (block : List Item)
    (createNewScope : Bool) : AnalyzeResult :=
  let σ' := if createNewScope then { σ with scopes := [] :: σ.scopes } else σ
  match analyzeItems σ' block false with
  | .err e s => .err e s
  | .ok σ'' _ =>
    if createNewScope then .ok { σ'' with scopes := σ.scopes } else .ok σ''

/-- `SemanticAnalyzer::analyzeFunctionDecl` (`src/semantic_analyzer.cpp` lines
127-181), assembled from the pieces above: push a child scope, replace the
four context fields, insert the parameters, analyze the body without a
further scope, run the definite-return gate, and restore scope and context
(normal exit path only, as in the source). -/
def analyzeFunctionDecl (σ : AnalyzerState) (name : String)
    (parameters : List (String × DataType)) (returnType : DataType)
    (bodyItems : List Item) : AnalyzeResult :=
  match insertParams [] parameters with
  | .error (e, fpart) => .err e (funcEntryState σ name returnType fpart)
  | .ok f =>
    match analyzeBlock (funcEntryState σ name returnType f) bodyItems false with
    | .err e s => .err e s
    | .ok σ₁ =>
      if returnType = DataType.IOTA then
        .ok (funcRestore σ σ₁)
      else if checkPathsReturn bodyItems then
        .ok (funcRestore σ σ₁)
      else
        .err (.semantic .MISSING_RETURN (.function name)) σ₁

/-- The `SymbolInfo` built for a hoisted function in pass 1 of
`SemanticAnalyzer::analyzeProgram` (`src/semantic_analyzer.cpp` lines
103-113): default-constructed, then name, `FUNCTION` kind, return type and
parameter types filled in. -/
def funcSymbol (n : String) (ps : List (String × DataType))
    (ret : DataType) : SymbolInfo :=
  { name := n, type := DataType.IOTA, kind := SymbolKind.FUNCTION,
    isConstant := false, paramTypes := ps.map Prod.snd, returnType := ret }

/-- Pass 1 of `SemanticAnalyzer::analyzeProgram` (`src/semantic_analyzer.cpp`
lines 82-115): hoist every top-level function declaration into the global
scope.  On a duplicate the thrown error carries the frame built so far. -/
def pass1 : List Item → Frame → Except (AnalyzerError × Frame) Frame
  | [], g => .ok g
  | .funcDecl name params returnType _ :: rest, g =>
    if existsLocal g name then
      match lookupLocal g name with
      | some existing =>
        if existing.kind = SymbolKind.FUNCTION then
          .error (.semantic .REDECLARED_FUNCTION (.function name), g)
        else
          .error (.semantic .REDECLARED_IDENTIFIER (.identifier name), g)
      | Option.none =>
        .error (.semantic .REDECLARED_IDENTIFIER (.identifier name), g)
    else
      pass1 rest ((name, funcSymbol name params returnType) :: g)
  | _ :: rest, g => pass1 rest g

/-- Pass 2 of `SemanticAnalyzer::analyzeProgram` (lines 117-124): revisit the
top-level declarations in source order. -/
def pass2 (σ : AnalyzerState) : List Item → AnalyzeResult
  | [] => .ok σ
  | .funcDecl n ps ret body :: rest =>
    match analyzeFunctionDecl σ n ps ret body with
    | .err e s => .err e s
    | .ok σ' => pass2 σ' rest
  | .varDecl c n t init :: rest =>
    match analyzeVarDecl σ c n t init with
    | .err e s => .err e s
    | .ok σ' => pass2 σ' rest
  | .stmt _ :: rest => pass2 σ rest

/-- The walker's freshly constructed state at the top of
`SemanticAnalyzer::analyzeProgram`: an empty global scope and the
constructor-initialized context fields. -/
def initialState : AnalyzerState :=
  { scopes := [[]], currentFunction := "",
    currentFunctionReturnType := DataType.IOTA,
    hasReturn := false, isUnreachable := false }

/-- `SemanticAnalyzer::analyzeProgram` (`src/semantic_analyzer.cpp` lines
77-125): create the global scope, hoist (pass 1), then walk the bodies
(pass 2). -/
def analyzeProgram (declarations : List Item) : AnalyzeResult :=
  match pass1 declarations [] with
  | .error (e, g) => .err e { initialState with scopes := [g] }
  | .ok g => pass2 { initialState with scopes := [g] } declarations

/-- `SemanticAnalyzer::visit(IfNode*)` (`src/semantic_analyzer.cpp` lines
674-678) and its four siblings: the visitor entry points for the alternate
statement family throw `std::runtime_error`, an internal invariant failure
outside the user-program diagnostic taxonomy. -/
def visitAlternate (σ : AnalyzerState) : Stmt → AnalyzeResult
  | .altIf =>
    .err (.internal "IfNode should not be encountered in semantic analysis") σ
  | .altWhile =>
    .err (.internal "WhileNode should not be encountered in semantic analysis") σ
  | .altReturn =>
    .err (.internal "ReturnNode should not be encountered in semantic analysis") σ
  | .altPrint =>
    .err (.internal "PrintNode should not be encountered in semantic analysis") σ
  | .altAssignment =>
    .err (.internal "AssignmentNode should not be encountered in semantic analysis") σ
  | _ => .ok σ

mutual

/-- Modelled from the spec's description of `all_paths_return` (§4.7), for
comparison with the source's `checkPathsReturn`: a `return` statement
returns; an if with both a `then` and an `else` branch returns iff both
branches recursively return; no other item form returns. -/
inductive ItemReturns : Item → Prop where
  | retStmt (v : Option Expr) : ItemReturns (.stmt (.ret v))
  | ifBoth (c : Expr) (t e : List Item) (hne : e ≠ [])
      (ht : BlockAnyReturns t) (he : BlockAnyReturns e) :
      ItemReturns (.stmt (.ifStmt c t e))

/-- The spec's "the block returns iff any of its items returns": some item
of the list returns. -/
inductive BlockAnyReturns : List Item → Prop where
  | head (i : Item) (rest : List Item) :
      ItemReturns i → BlockAnyReturns (i :: rest)
  | tail (i : Item) (rest : List Item) :
      BlockAnyReturns rest → BlockAnyReturns (i :: rest)

end

/-- The list of types the arguments of a call analyze to, in order, when
each of them analyzes successfully: the "actual argument type list" the
spec speaks about for `invalid_signature`. -/
def argTypesList (scopes : List Frame) :
    List Expr → Except AnalyzerError (List DataType)
  | [] => .ok []
  | a :: rest => do
    let t ← analyzeExpr scopes a
    let ts ← argTypesList scopes rest
    .ok (t :: ts)

/-- The index of the first parameter/argument type pair rejected by
`isAssignmentCompatible`, if any. -/
def firstIncompat : List DataType → List DataType → Option Nat
  | p :: ps, t :: ts =>
    if isAssignmentCompatible p t then (firstIncompat ps ts).map (· + 1)
    else some 0
  | _, _ => none

/-- The names of the top-level function declarations of a program, the
symbols pass 1 hoists. -/
def topFuncNames : List Item → List String
  | [] => []
  | .funcDecl n _ _ _ :: rest => n :: topFuncNames rest
  | _ :: rest => topFuncNames rest

/-- A concrete global scope binding `g : (Int, Bool) -> Int`, used for the
call-site examples. -/
def gSym : SymbolInfo :=
  { name := "g", type := DataType.IOTA, kind := SymbolKind.FUNCTION,
    isConstant := false, paramTypes := [DataType.INT, DataType.BOOL],
    returnType := DataType.INT }

/-- The scope chain holding only `gSym`. -/
def gScopes : List Frame := [[("g", gSym)]]

/-! ## Theorems -/

/-- Looking up in a frame extended by one entry finds the new entry for its
own name and is otherwise unchanged. -/
theorem lookupLocal_cons (m : String) (s : SymbolInfo) (f : Frame)
    (n : String) :
    lookupLocal ((m, s) :: f) n = if m = n then some s else lookupLocal f n := by
  by_cases h : m = n <;>
    simp [lookupLocal, List.find?_cons, h]

/-- A name absent by `existsLocal` is also absent by `lookupLocal`. -/
theorem lookupLocal_eq_none_of_not_existsLocal (f : Frame) (n : String)
    (h : existsLocal f n = false) : lookupLocal f n = Option.none := by
  unfold existsLocal at h
  unfold lookupLocal
  rw [List.find?_eq_none.mpr]
  · rfl
  · intro p hp
    intro hpn
    have : f.any (fun p => p.1 = n) = true := by
      exact List.any_eq_true.mpr ⟨p, hp, hpn⟩
    rw [h] at this
    exact Bool.noConfusion this

/-- `existsLocal` agrees with `lookupLocal` being some. -/
theorem existsLocal_eq_isSome_lookupLocal (f : Frame) (n : String) :
    existsLocal f n = (lookupLocal f n).isSome := by
  unfold existsLocal lookupLocal
  induction f with
  | nil => rfl
  | cons p rest ih =>
    by_cases h : p.1 = n <;> simp [List.find?_cons, List.any_cons, h, ih]

/-- Every expression node has positive size. -/
theorem sizeOf_pos_expr (e : Expr) : 0 < sizeOf e := by
  cases e <;> simp_arith

/-- Every expression list has positive size. -/
theorem sizeOf_pos_listExpr (l : List Expr) : 0 < sizeOf l := by
  cases l <;> simp_arith

/-- Every item list has positive size. -/
theorem sizeOf_pos_listItem (l : List Item) : 0 < sizeOf l := by
  cases l <;> simp_arith

/-- Every item has positive size. -/
theorem sizeOf_pos_item (i : Item) : 0 < sizeOf i := by
  cases i <;> simp_arith

/-- Size-bounded form: expression typing never raises a redeclaration
diagnostic — its errors concern lookups, operators and call sites only. -/
theorem analyzeExpr_no_redecl_aux : ∀ N : Nat,
    (∀ (scopes : List Frame) (ex : Expr), sizeOf ex ≤ N →
      ∀ (et : SemanticErrorType) (ctx : SemanticErrorContext),
        analyzeExpr scopes ex = .error (.semantic et ctx) →
        et ≠ SemanticErrorType.REDECLARED_IDENTIFIER ∧
        et ≠ SemanticErrorType.REDECLARED_FUNCTION) ∧
    (∀ (scopes : List Frame) (fname : String) (expAll ps : List DataType)
      (args : List Expr) (acc : List DataType), sizeOf args ≤ N →
      ∀ (et : SemanticErrorType) (ctx : SemanticErrorContext),
        analyzeCallArgs scopes fname expAll ps args acc =
          .error (.semantic et ctx) →
        et ≠ SemanticErrorType.REDECLARED_IDENTIFIER ∧
        et ≠ SemanticErrorType.REDECLARED_FUNCTION) := by
  intro N
  induction N with
  | zero =>
    constructor
    · intro scopes ex hsz
      have := sizeOf_pos_expr ex
      omega
    · intro scopes fname expAll ps args acc hsz
      have := sizeOf_pos_listExpr args
      omega
  | succ N ihN =>
    constructor
    · intro scopes ex hsz et ctx h
      cases ex with
      | intLit v => simp [analyzeExpr] at h
      | floatLit => simp [analyzeExpr] at h
      | boolLit v => simp [analyzeExpr] at h
      | ident n =>
        simp only [analyzeExpr] at h
        split at h
        · injection h with h'
          injection h' with h1 h2
          subst h1
          exact ⟨by decide, by decide⟩
        · split at h
          · injection h with h'
            injection h' with h1 h2
            subst h1
            exact ⟨by decide, by decide⟩
          · simp at h
      | binOp l op r =>
        have hl : sizeOf l ≤ N := by
          have := sizeOf_pos_expr r
          simp only [Expr.binOp.sizeOf_spec] at hsz
          omega
        have hr : sizeOf r ≤ N := by
          have := sizeOf_pos_expr l
          simp only [Expr.binOp.sizeOf_spec] at hsz
          omega
        simp only [analyzeExpr, Bind.bind, Except.bind] at h
        cases hle : analyzeExpr scopes l with
        | error e =>
          rw [hle] at h
          injection h with h'
          subst h'
          exact (ihN.1 scopes l hl et ctx hle)
        | ok lt =>
          rw [hle] at h
          cases hre : analyzeExpr scopes r with
          | error e =>
            rw [hre] at h
            injection h with h'
            subst h'
            exact (ihN.1 scopes r hr et ctx hre)
          | ok rt =>
            rw [hre] at h
            dsimp only at h
            split at h
            · split at h
              · injection h with h'
                injection h' with h1 h2
                subst h1
                exact ⟨by decide, by decide⟩
              · split at h <;> simp at h
            · split at h
              · split at h
                · injection h with h'
                  injection h' with h1 h2
                  subst h1
                  exact ⟨by decide, by decide⟩
                · simp at h
              · split at h
                · split at h
                  · injection h with h'
                    injection h' with h1 h2
                    subst h1
                    exact ⟨by decide, by decide⟩
                  · simp at h
                · simp at h
      | unOp op e =>
        have he : sizeOf e ≤ N := by
          simp only [Expr.unOp.sizeOf_spec] at hsz
          omega
        simp only [analyzeExpr, Bind.bind, Except.bind] at h
        cases hee : analyzeExpr scopes e with
        | error er =>
          rw [hee] at h
          injection h with h'
          subst h'
          exact (ihN.1 scopes e he et ctx hee)
        | ok te =>
          rw [hee] at h
          dsimp only at h
          split at h
          · split at h
            · injection h with h'
              injection h' with h1 h2
              subst h1
              exact ⟨by decide, by decide⟩
            · simp at h
          · simp at h
      | call fname args =>
        have hargs : sizeOf args ≤ N := by
          simp only [Expr.call.sizeOf_spec] at hsz
          have : 0 < sizeOf fname := by
            cases fname
            simp_arith
          omega
        simp only [analyzeExpr] at h
        cases hlc : lookupChain scopes fname with
        | none =>
          rw [hlc] at h
          injection h with h'
          injection h' with h1 h2
          subst h1
          exact ⟨by decide, by decide⟩
        | some symbol =>
          rw [hlc] at h
          dsimp only at h
          split at h
          · injection h with h'
            injection h' with h1 h2
            subst h1
            exact ⟨by decide, by decide⟩
          · split at h
            · injection h with h'
              injection h' with h1 h2
              subst h1
              exact ⟨by decide, by decide⟩
            · simp only [Bind.bind, Except.bind] at h
              cases hca : analyzeCallArgs scopes fname symbol.paramTypes
                  symbol.paramTypes args [] with
              | error er =>
                rw [hca] at h
                injection h with h'
                subst h'
                exact ihN.2 scopes fname symbol.paramTypes symbol.paramTypes
                  args [] hargs et ctx hca
              | ok ts =>
                rw [hca] at h
                simp at h
    · intro scopes fname expAll ps args acc hsz et ctx h
      cases ps with
      | nil =>
        cases args with
        | nil => simp [analyzeCallArgs] at h
        | cons a rest => simp [analyzeCallArgs] at h
      | cons p ps' =>
        cases args with
        | nil => simp [analyzeCallArgs] at h
        | cons a rest =>
          have ha : sizeOf a ≤ N := by
            have := sizeOf_pos_listExpr rest
            simp only [List.cons.sizeOf_spec] at hsz
            omega
          have hrest : sizeOf rest ≤ N := by
            have := sizeOf_pos_expr a
            simp only [List.cons.sizeOf_spec] at hsz
            omega
          simp only [analyzeCallArgs, Bind.bind, Except.bind] at h
          cases hae : analyzeExpr scopes a with
          | error er =>
            rw [hae] at h
            injection h with h'
            subst h'
            exact ihN.1 scopes a ha et ctx hae
          | ok t =>
            rw [hae] at h
            dsimp only at h
            split at h
            · injection h with h'
              injection h' with h1 h2
              subst h1
              exact ⟨by decide, by decide⟩
            · exact ihN.2 scopes fname expAll ps' rest (acc ++ [t]) hrest
                et ctx h

/-- Expression typing never raises a redeclaration diagnostic. -/
theorem analyzeExpr_no_redecl (scopes : List Frame) (ex : Expr)
    (et : SemanticErrorType) (ctx : SemanticErrorContext)
    (h : analyzeExpr scopes ex = .error (.semantic et ctx)) :
    et ≠ SemanticErrorType.REDECLARED_IDENTIFIER ∧
    et ≠ SemanticErrorType.REDECLARED_FUNCTION :=
  (analyzeExpr_no_redecl_aux (sizeOf ex)).1 scopes ex (Nat.le_refl _) et ctx h

/-- C3: the assignment-compatibility relation holds exactly on the
reflexive pairs, `(Float, Int)`, `(Bool, Int)` and `(Int, Bool)`; in
particular `(Int, Float)`, `(Bool, Float)` and `(Float, Bool)` are all
rejected. -/
theorem isAssignmentCompatible_characterization :
    (∀ target source : DataType,
      isAssignmentCompatible target source = true ↔
        (target = source ∨
          (target = DataType.FLOAT ∧ source = DataType.INT) ∨
          (target = DataType.BOOL ∧ source = DataType.INT) ∨
          (target = DataType.INT ∧ source = DataType.BOOL))) ∧
    isAssignmentCompatible DataType.INT DataType.FLOAT = false ∧
    isAssignmentCompatible DataType.BOOL DataType.FLOAT = false ∧
    isAssignmentCompatible DataType.FLOAT DataType.BOOL = false := by
  refine ⟨fun target source => ?_, rfl, rfl, rfl⟩
  cases target <;> cases source <;> simp [isAssignmentCompatible]

/-- C9: a variable/constant declaration raises a redeclaration diagnostic
exactly when the name is already present in the current scope itself (the
duplicate check never consults the parent frames `rest`, and initializer
errors are never redeclaration diagnostics); when the name is only bound in
an enclosing scope the declaration succeeds, prepends a new binding to the
inner frame, and upward lookup then resolves the inner binding first. -/
theorem varDecl_shadowing (σ : AnalyzerState) (f : Frame)
    (rest : List Frame) (isC : Bool) (n : String) (t : DataType)
    (hscopes : σ.scopes = f :: rest) (hreach : σ.isUnreachable = false) :
    (∀ init, existsLocal f n = true →
      analyzeVarDecl σ isC n t init =
          .err (.semantic .REDECLARED_FUNCTION (.function n)) σ ∨
        analyzeVarDecl σ isC n t init =
          .err (.semantic .REDECLARED_IDENTIFIER (.identifier n)) σ) ∧
    (∀ init, (∃ e st, analyzeVarDecl σ isC n t init = .err e st ∧
        (e = .semantic .REDECLARED_IDENTIFIER (.identifier n) ∨
          e = .semantic .REDECLARED_FUNCTION (.function n))) ↔
      existsLocal f n = true) ∧
    (existsLocal f n = false →
      analyzeVarDecl σ isC n t Option.none =
        .ok { σ with scopes :=
          ((n, SymbolInfo.mkVar n t SymbolKind.VARIABLE isC) :: f) :: rest }) ∧
    (∀ s : SymbolInfo, ∀ f' : Frame, ∀ rest' : List Frame,
      lookupChain (((n, s) :: f') :: rest') n = some s) := by
  have hredecl : ∀ init, existsLocal f n = true →
      analyzeVarDecl σ isC n t init =
          .err (.semantic .REDECLARED_FUNCTION (.function n)) σ ∨
        analyzeVarDecl σ isC n t init =
          .err (.semantic .REDECLARED_IDENTIFIER (.identifier n)) σ := by
    intro init hex
    unfold analyzeVarDecl
    rw [hreach, hscopes]
    simp only [Bool.false_eq_true, if_false, hex, if_true]
    cases hl : lookupLocal f n with
    | none => right; rfl
    | some existing =>
      by_cases hk : existing.kind = SymbolKind.FUNCTION
      · left; simp [hk]
      · right; simp [hk]
  refine ⟨hredecl, ?_, ?_, ?_⟩
  · intro init
    constructor
    · rintro ⟨e, st, herr, hkind⟩
      cases hexb : existsLocal f n with
      | true => rfl
      | false =>
        exfalso
        unfold analyzeVarDecl at herr
        rw [hreach, hscopes] at herr
        simp only [Bool.false_eq_true, if_false, hexb, if_true] at herr
        cases init with
        | none => simp at herr
        | some ie =>
          simp only [Bind.bind, Except.bind] at herr
          cases hie : analyzeExpr (f :: rest) ie with
          | error er =>
            rw [hie] at herr
            dsimp only at herr
            injection herr with h1 h2
            subst h1
            cases hkind with
            | inl hk =>
              subst hk
              exact (analyzeExpr_no_redecl (f :: rest) ie _ _
                (by rw [hie])).1 rfl
            | inr hk =>
              subst hk
              exact (analyzeExpr_no_redecl (f :: rest) ie _ _
                (by rw [hie])).2 rfl
          | ok it =>
            rw [hie] at herr
            dsimp only at herr
            by_cases hcomp : isAssignmentCompatible t it = true
            · rw [if_neg (by simp [hcomp])] at herr
              simp at herr
            · have hc : isAssignmentCompatible t it = false := by
                revert hcomp
                cases isAssignmentCompatible t it <;> simp
              rw [if_pos (by simp [hc])] at herr
              injection herr with h1 h2
              subst h1
              cases hkind with
              | inl hk => simp at hk
              | inr hk => simp at hk
    · intro hex
      rcases hredecl init hex with h | h
      · exact ⟨_, σ, h, Or.inr rfl⟩
      · exact ⟨_, σ, h, Or.inl rfl⟩
  · intro hex
    unfold analyzeVarDecl
    rw [hreach, hscopes]
    simp [hex]
  · intro s f' rest'
    simp [lookupChain, lookupLocal_cons]

/-- C9 witness: for a concrete state whose current scope is empty but whose
parent binds `x : Int`, re-declaring `x : Bool` succeeds and shadows, and
the redeclaration arm fires when `x` is instead already local. -/
theorem varDecl_shadowing_witness :
    (analyzeVarDecl
        { scopes := [[], [("x", SymbolInfo.mkVar "x" DataType.INT
            SymbolKind.VARIABLE false)]],
          currentFunction := "f",
          currentFunctionReturnType := DataType.IOTA,
          hasReturn := false, isUnreachable := false }
        false "x" DataType.BOOL Option.none =
      .ok { scopes := [[("x", SymbolInfo.mkVar "x" DataType.BOOL
              SymbolKind.VARIABLE false)],
            [("x", SymbolInfo.mkVar "x" DataType.INT
              SymbolKind.VARIABLE false)]],
            currentFunction := "f",
            currentFunctionReturnType := DataType.IOTA,
            hasReturn := false, isUnreachable := false }) ∧
    lookupChain [[("x", SymbolInfo.mkVar "x" DataType.BOOL
        SymbolKind.VARIABLE false)],
      [("x", SymbolInfo.mkVar "x" DataType.INT SymbolKind.VARIABLE false)]]
      "x" = some (SymbolInfo.mkVar "x" DataType.BOOL SymbolKind.VARIABLE
        false) := by
  have h := varDecl_shadowing
    { scopes := [[], [("x", SymbolInfo.mkVar "x" DataType.INT
        SymbolKind.VARIABLE false)]],
      currentFunction := "f",
      currentFunctionReturnType := DataType.IOTA,
      hasReturn := false, isUnreachable := false }
    [] [[("x", SymbolInfo.mkVar "x" DataType.INT SymbolKind.VARIABLE false)]]
    false "x" DataType.BOOL rfl rfl
  exact ⟨h.2.2.1 (by decide),
    h.2.2.2 (SymbolInfo.mkVar "x" DataType.BOOL SymbolKind.VARIABLE false)
      [] [[("x", SymbolInfo.mkVar "x" DataType.INT SymbolKind.VARIABLE false)]]⟩

/-- C8: an alternate-family node in statement position inside a block is
silently skipped by the block walk (`analyzeBlock` dispatches through
`analyzeStmt`, whose five casts all fail), returning success with the state
untouched — whereas the visitor entry points for the same nodes report an
internal invariant failure.  This contradicts the documented contract that
the walk reports such nodes as internal failures. -/
theorem alternate_nodes_silently_skipped :
    analyzeBlock initialState [Item.stmt Stmt.altIf] false =
      .ok initialState ∧
    analyzeItems initialState
      [Item.stmt Stmt.altIf, Item.stmt Stmt.altWhile,
        Item.stmt Stmt.altReturn, Item.stmt Stmt.altPrint,
        Item.stmt Stmt.altAssignment] false =
      .ok initialState false ∧
    visitAlternate initialState Stmt.altIf =
      .err (.internal "IfNode should not be encountered in semantic analysis")
        initialState := by
  refine ⟨by decide, by decide, rfl⟩

/-- A binary operation whose operator string is none of the ten handled ones
falls through the operator chain: both operands are still typed, then the
walker returns the `IOTA` sentinel without a diagnostic. -/
theorem analyzeExpr_binOp_unknown (scopes : List Frame) (l r : Expr)
    (op : String) (tl tr : DataType)
    (hl : analyzeExpr scopes l = .ok tl)
    (hr : analyzeExpr scopes r = .ok tr)
    (hop : op ∉ (["+", "-", "*", "/", "<", ">", "<=", ">=", "==", "!="] :
      List String)) :
    analyzeExpr scopes (.binOp l op r) = .ok DataType.IOTA := by
  simp only [List.mem_cons, List.mem_singleton, not_or] at hop
  obtain ⟨h1, h2, h3, h4, h5, h6, h7, h8, h9, h10⟩ := hop
  simp [analyzeExpr, hl, hr, h1, h2, h3, h4, h5, h6, h7, h8, h9, h10,
    Bind.bind, Except.bind]

/-- A unary operation whose operator is not `-` falls through: the operand
is typed, then the walker returns `IOTA` without a diagnostic. -/
theorem analyzeExpr_unOp_unknown (scopes : List Frame) (e : Expr)
    (op : String) (te : DataType)
    (he : analyzeExpr scopes e = .ok te) (hop : op ≠ "-") :
    analyzeExpr scopes (.unOp op e) = .ok DataType.IOTA := by
  simp [analyzeExpr, he, hop, Bind.bind, Except.bind]

/-- C10: a binary operation with an unrecognized operator string, and a
unary operation with an operator other than `-`, raise no diagnostic and
type to the `IOTA` sentinel, which then takes part in the enclosing
compatibility gates as an ordinary type (here: an `int` declaration
initialized with such an expression fails the `accepts(Int, IOTA)` check
and raises the ordinary type-mismatch diagnostic with actual type `IOTA`). -/
theorem unknown_operator_types_to_IOTA :
    (∀ (scopes : List Frame) (l r : Expr) (op : String) (tl tr : DataType),
      analyzeExpr scopes l = .ok tl → analyzeExpr scopes r = .ok tr →
      op ∉ (["+", "-", "*", "/", "<", ">", "<=", ">=", "==", "!="] :
        List String) →
      analyzeExpr scopes (.binOp l op r) = .ok DataType.IOTA) ∧
    (∀ (scopes : List Frame) (e : Expr) (op : String) (te : DataType),
      analyzeExpr scopes e = .ok te → op ≠ "-" →
      analyzeExpr scopes (.unOp op e) = .ok DataType.IOTA) ∧
    (∀ (σ : AnalyzerState) (f : Frame) (rest : List Frame) (isC : Bool)
      (x : String) (l r : Expr) (op : String) (tl tr : DataType),
      σ.scopes = f :: rest → σ.isUnreachable = false →
      existsLocal f x = false →
      analyzeExpr σ.scopes l = .ok tl → analyzeExpr σ.scopes r = .ok tr →
      op ∉ (["+", "-", "*", "/", "<", ">", "<=", ">=", "==", "!="] :
        List String) →
      analyzeVarDecl σ isC x DataType.INT (some (.binOp l op r)) =
        .err (.semantic .VAR_DECL_TYPE_MISMATCH
          (.identifierTypeMismatch x DataType.INT DataType.IOTA)) σ) := by
  refine ⟨analyzeExpr_binOp_unknown, analyzeExpr_unOp_unknown, ?_⟩
  intro σ f rest isC x l r op tl tr hscopes hreach hex hl hr hop
  have hbin := analyzeExpr_binOp_unknown σ.scopes l r op tl tr hl hr hop
  unfold analyzeVarDecl
  rw [hreach, hscopes]
  rw [hscopes] at hbin
  simp [hex, hbin, isAssignmentCompatible, Bind.bind, Except.bind]

/-- C10 witness: the modulo operator is unhandled, so `1 % 2` types to
`IOTA` and an `int` declaration initialized with it raises the ordinary
variable-declaration type mismatch carrying `IOTA`. -/
theorem unknown_operator_types_to_IOTA_witness :
    analyzeExpr [] (.binOp (.intLit 1) "%" (.intLit 2)) =
      .ok DataType.IOTA ∧
    analyzeVarDecl initialState false "x" DataType.INT
        (some (.binOp (.intLit 1) "%" (.intLit 2))) =
      .err (.semantic .VAR_DECL_TYPE_MISMATCH
        (.identifierTypeMismatch "x" DataType.INT DataType.IOTA))
        initialState := by
  constructor
  · exact unknown_operator_types_to_IOTA.1 [] (.intLit 1) (.intLit 2) "%"
      DataType.INT DataType.INT rfl rfl (by decide)
  · exact unknown_operator_types_to_IOTA.2.2 initialState [] [] false "x"
      (.intLit 1) (.intLit 2) "%" DataType.INT DataType.INT rfl rfl rfl
      rfl rfl (by decide)

/-- The if-statement case of the walker, re-expressed through
`analyzeBlock`: for a reachable if whose condition types to `Bool`, the
`then` branch runs in a fresh child scope, the flag is reset to the pre-if
value (false) before the `else` branch, and the post-if flag is the
conjunction of the branch flags (or the pre-if value without an `else`). -/
theorem analyzeStmt_ifStmt_eq (σ : AnalyzerState) (c : Expr)
    (t e : List Item)
    (hreach : σ.isUnreachable = false)
    (hcond : analyzeExpr σ.scopes c = .ok DataType.BOOL) :
    analyzeStmt σ (.ifStmt c t e) =
      match analyzeBlock σ t true with
      | .err e' s => .err e' s
      | .ok σ₁ =>
        if e.isEmpty then .ok { σ₁ with isUnreachable := false }
        else
          match analyzeBlock { σ₁ with isUnreachable := false } e true with
          | .err e' s => .err e' s
          | .ok σ₂ =>
            if σ₁.isUnreachable && σ₂.isUnreachable then
              .ok { σ₂ with isUnreachable := true }
            else
              .ok { σ₂ with isUnreachable := false } := by
  simp only [analyzeStmt, analyzeBlock, hreach, hcond, Bool.false_eq_true,
    if_false, ne_eq, not_true_eq_false, reduceCtorEq, if_true]
  cases h1 : analyzeItems
      { σ with scopes := [] :: σ.scopes, isUnreachable := false } t false with
  | err e' s' => simp
  | ok σt but =>
    dsimp only
    cases he : e.isEmpty with
    | true => simp
    | false =>
      simp only [Bool.false_eq_true, if_false]
      cases h2 : analyzeItems
          { σt with scopes := [] :: σ.scopes, isUnreachable := false }
          e false with
      | err e' s' => simp
      | ok σe bue => simp

/-- C1: for a reachable if statement whose condition types to `Bool`, the
walker analyzes the `then` branch in a fresh child scope (the
`analyzeBlock · true` hypotheses), captures its terminal `unreachable` flag,
and resets the flag to the pre-if value before the `else` branch; with an
`else` branch the post-if flag is the conjunction of the two branches'
terminal flags, and without one it is the pre-if value. -/
theorem if_reachability (σ : AnalyzerState) (c : Expr) (t e : List Item)
    (σ₁ : AnalyzerState)
    (hreach : σ.isUnreachable = false)
    (hcond : analyzeExpr σ.scopes c = .ok DataType.BOOL)
    (hthen : analyzeBlock σ t true = .ok σ₁) :
    (e = [] →
      analyzeStmt σ (.ifStmt c t e) =
        .ok { σ₁ with isUnreachable := σ.isUnreachable }) ∧
    (∀ σ₂ : AnalyzerState, e ≠ [] →
      analyzeBlock { σ₁ with isUnreachable := σ.isUnreachable } e true =
        .ok σ₂ →
      analyzeStmt σ (.ifStmt c t e) =
        .ok { σ₂ with
          isUnreachable := σ₁.isUnreachable && σ₂.isUnreachable }) := by
  rw [analyzeStmt_ifStmt_eq σ c t e hreach hcond, hthen]
  constructor
  · intro he
    subst he
    simp [hreach]
  · intro σ₂ hene helse
    rw [hreach] at helse
    have hne : e.isEmpty = false := by
      cases e with
      | nil => exact absurd rfl hene
      | cons a l => rfl
    rw [hne] at *
    simp only [Bool.false_eq_true, if_false]
    rw [helse]
    rcases hbt : σ₁.isUnreachable <;> rcases hbe : σ₂.isUnreachable <;>
      simp [hbt, hbe]

/-- C1 witness: a concrete if whose branches both end in `return` leaves the
walker unreachable after the if (`true && true`), at a state with the
original scope chain restored. -/
theorem if_reachability_witness :
    analyzeStmt ⟨[[]], "f", DataType.IOTA, false, false⟩
        (.ifStmt (.boolLit true) [Item.stmt (Stmt.ret Option.none)]
          [Item.stmt (Stmt.ret Option.none)]) =
      .ok ⟨[[]], "f", DataType.IOTA, true, true⟩ := by
  have h := if_reachability ⟨[[]], "f", DataType.IOTA, false, false⟩
    (.boolLit true) [Item.stmt (Stmt.ret Option.none)]
    [Item.stmt (Stmt.ret Option.none)] ⟨[[]], "f", DataType.IOTA, true, true⟩
    rfl rfl (by decide)
  have h2 := h.2 ⟨[[]], "f", DataType.IOTA, true, true⟩ (by simp) (by decide)
  simpa using h2

/-- The item loop on the empty list: normal exit with the current flag. -/
theorem analyzeItems_nil (σ : AnalyzerState) (bu : Bool) :
    analyzeItems σ [] bu = .ok σ bu := by
  rw [analyzeItems.eq_def]

/-- The item loop throws `unreachable_code` at any item once the local
`blockUnreachable` flag is set. -/
theorem analyzeItems_cons_unreachable (σ : AnalyzerState) (item : Item)
    (rest : List Item) :
    analyzeItems σ (item :: rest) true =
      .err (.semantic .UNREACHABLE_CODE .none) σ := by
  rw [analyzeItems.eq_def]
  dsimp only
  simp

/-- One loop step on a statement item: dispatch to `analyzeStmt`, then set
both unreachable flags when the statement was a terminator. -/
theorem analyzeItems_cons_stmt (σ : AnalyzerState) (st : Stmt)
    (rest : List Item) :
    analyzeItems σ (Item.stmt st :: rest) false =
      match analyzeStmt σ st with
      | .err e s => .err e s
      | .ok σ' =>
        if isTerminator (.stmt st) then
          analyzeItems { σ' with isUnreachable := true } rest true
        else
          analyzeItems σ' rest false := by
  rw [analyzeItems.eq_def]
  dsimp only
  simp only [Bool.false_eq_true, if_false]

/-- One loop step on a variable/constant declaration item. -/
theorem analyzeItems_cons_varDecl (σ : AnalyzerState) (c : Bool) (n : String)
    (t : DataType) (init : Option Expr) (rest : List Item) :
    analyzeItems σ (Item.varDecl c n t init :: rest) false =
      match analyzeVarDecl σ c n t init with
      | .err e s => .err e s
      | .ok σ' => analyzeItems σ' rest false := by
  rw [analyzeItems.eq_def]
  dsimp only
  simp only [Bool.false_eq_true, if_false]

/-- One loop step on a nested function declaration item, expressed with the
`analyzeFunctionDecl` wrapper. -/
theorem analyzeItems_cons_funcDecl (σ : AnalyzerState) (n : String)
    (ps : List (String × DataType)) (ret : DataType) (body rest : List Item) :
    analyzeItems σ (Item.funcDecl n ps ret body :: rest) false =
      match analyzeFunctionDecl σ n ps ret body with
      | .err e s => .err e s
      | .ok σ' => analyzeItems σ' rest false := by
  rw [analyzeItems.eq_def]
  unfold analyzeFunctionDecl analyzeBlock
  dsimp only
  simp only [Bool.false_eq_true, if_false]
  cases hip : insertParams [] ps with
  | error es => rcases es with ⟨e, fpart⟩; rfl
  | ok f =>
    dsimp only
    cases hbody : analyzeItems (funcEntryState σ n ret f) body false with
    | err e s => rfl
    | ok σ₁ bu' =>
      dsimp only
      by_cases hret : ret = DataType.IOTA
      · simp [hret]
      · by_cases hchk : checkPathsReturn body = true
        · simp [hret, hchk]
        · simp [hret, hchk]

/-- Running the block-item loop on an appended list runs the two parts in
sequence, threading the state and the local `blockUnreachable` flag. -/
theorem analyzeItems_append (σ : AnalyzerState) (pre suf : List Item)
    (bu : Bool) :
    analyzeItems σ (pre ++ suf) bu =
      match analyzeItems σ pre bu with
      | .ok σ' bu' => analyzeItems σ' suf bu'
      | .err e s => .err e s := by
  induction pre generalizing σ bu with
  | nil => rw [List.nil_append, analyzeItems_nil]
  | cons item rest ih =>
    rw [List.cons_append]
    cases bu with
    | true => rw [analyzeItems_cons_unreachable, analyzeItems_cons_unreachable]
    | false =>
      cases item with
      | funcDecl n ps ret body =>
        rw [analyzeItems_cons_funcDecl, analyzeItems_cons_funcDecl]
        cases analyzeFunctionDecl σ n ps ret body with
        | err e s => rfl
        | ok σ' => dsimp only; rw [ih]
      | varDecl c n t init =>
        rw [analyzeItems_cons_varDecl, analyzeItems_cons_varDecl]
        cases analyzeVarDecl σ c n t init with
        | err e s => rfl
        | ok σ' => dsimp only; rw [ih]
      | stmt st =>
        rw [analyzeItems_cons_stmt, analyzeItems_cons_stmt]
        cases analyzeStmt σ st with
        | err e s => rfl
        | ok σ' =>
          dsimp only
          by_cases hterm : isTerminator (.stmt st) = true
          · simp only [hterm, if_true]; rw [ih]
          · simp only [hterm, Bool.false_eq_true, if_false]; rw [ih]

/-- C5: in any block, once a reachable `return` has been analyzed the loop's
`blockUnreachable` flag is set, and the presence of any following item — a
statement, a declaration, or a nested function declaration alike — makes the
walk raise `unreachable_code` at the state left by the return. -/
theorem dead_code_after_return (σ : AnalyzerState) (pre : List Item)
    (σ₁ : AnalyzerState) (v : Option Expr) (σ₂ : AnalyzerState)
    (item : Item) (rest : List Item)
    (hpre : analyzeItems σ pre false = .ok σ₁ false)
    (hret : analyzeReturn σ₁ v = .ok σ₂) :
    analyzeItems σ (pre ++ Item.stmt (Stmt.ret v) :: item :: rest) false =
      .err (.semantic .UNREACHABLE_CODE .none)
        { σ₂ with isUnreachable := true } := by
  rw [analyzeItems_append, hpre]
  dsimp only
  rw [analyzeItems_cons_stmt]
  have hstmt : analyzeStmt σ₁ (Stmt.ret v) = .ok σ₂ := by
    simpa [analyzeStmt] using hret
  rw [hstmt]
  dsimp only
  simp only [isTerminator, if_true]
  rw [analyzeItems_cons_unreachable]

/-- C5 witness: a return directly followed by a variable declaration raises
`unreachable_code`. -/
theorem dead_code_after_return_witness :
    analyzeItems ⟨[[]], "f", DataType.IOTA, false, false⟩
        ([] ++ Item.stmt (Stmt.ret Option.none) ::
          Item.varDecl false "y" DataType.INT (some (Expr.intLit 2)) :: [])
        false =
      .err (.semantic .UNREACHABLE_CODE .none)
        ⟨[[]], "f", DataType.IOTA, true, true⟩ := by
  have h := dead_code_after_return ⟨[[]], "f", DataType.IOTA, false, false⟩
    [] ⟨[[]], "f", DataType.IOTA, false, false⟩ Option.none
    ⟨[[]], "f", DataType.IOTA, true, true⟩
    (Item.varDecl false "y" DataType.INT (some (Expr.intLit 2))) []
    (by decide) (by decide)
  simpa using h

/-- `BlockAnyReturns` on a cons is returning of the head or of the tail. -/
theorem blockAnyReturns_cons (i : Item) (rest : List Item) :
    BlockAnyReturns (i :: rest) ↔ ItemReturns i ∨ BlockAnyReturns rest := by
  constructor
  · intro h
    cases h with
    | head _ _ h => exact Or.inl h
    | tail _ _ h => exact Or.inr h
  · intro h
    cases h with
    | inl h => exact .head i rest h
    | inr h => exact .tail i rest h

/-- The empty block returns on no path. -/
theorem blockAnyReturns_nil : ¬ BlockAnyReturns ([] : List Item) := by
  intro h
  cases h

/-- Size-bounded form of the equivalence between the source's
`checkPathsReturn` and the spec's `all_paths_return`. -/
theorem checkPathsReturn_iff_aux : ∀ N : Nat,
    (∀ items : List Item, sizeOf items ≤ N →
      (checkPathsReturn items = true ↔ BlockAnyReturns items)) ∧
    (∀ i : Item, sizeOf i ≤ N →
      (checkItemReturns i = true ↔ ItemReturns i)) := by
  intro N
  induction N with
  | zero =>
    constructor
    · intro items hsz
      have := sizeOf_pos_listItem items
      omega
    · intro i hsz
      have := sizeOf_pos_item i
      omega
  | succ N ihN =>
    constructor
    · intro items hsz
      cases items with
      | nil =>
        simp only [checkPathsReturn, Bool.false_eq_true, false_iff]
        exact blockAnyReturns_nil
      | cons i rest =>
        have hszi : sizeOf i ≤ N := by
          have h1 := sizeOf_pos_listItem rest
          simp only [List.cons.sizeOf_spec] at hsz
          omega
        have hszr : sizeOf rest ≤ N := by
          have h1 := sizeOf_pos_item i
          simp only [List.cons.sizeOf_spec] at hsz
          omega
        have hi := ihN.2 i hszi
        have hrest := ihN.1 rest hszr
        rw [blockAnyReturns_cons]
        simp only [checkPathsReturn]
        by_cases h : checkItemReturns i = true
        · simp [h, hi.mp h]
        · have hnot : ¬ ItemReturns i := fun hh => h (hi.mpr hh)
          simp [h, hnot, hrest]
    · intro i hsz
      cases i with
      | funcDecl n ps ret body =>
        simp only [checkItemReturns, Bool.false_eq_true, false_iff]
        intro h
        cases h
      | varDecl c n t init =>
        simp only [checkItemReturns, Bool.false_eq_true, false_iff]
        intro h
        cases h
      | stmt s =>
        simp only [checkItemReturns]
        cases s with
        | ret v =>
          simp only [checkStmtReturns, true_iff]
          exact ItemReturns.retStmt v
        | ifStmt c t e =>
          have hszt : sizeOf t ≤ N := by
            have h1 := sizeOf_pos_expr c
            have h2 := sizeOf_pos_listItem e
            simp only [Item.stmt.sizeOf_spec, Stmt.ifStmt.sizeOf_spec] at hsz
            omega
          have hsze : sizeOf e ≤ N := by
            have h1 := sizeOf_pos_expr c
            have h2 := sizeOf_pos_listItem t
            simp only [Item.stmt.sizeOf_spec, Stmt.ifStmt.sizeOf_spec] at hsz
            omega
          have ht := ihN.1 t hszt
          have he := ihN.1 e hsze
          simp only [checkStmtReturns, Bool.and_eq_true, Bool.not_eq_true']
          constructor
          · rintro ⟨⟨hne, hT⟩, hE⟩
            exact ItemReturns.ifBoth c t e
              (by simpa [List.isEmpty_eq_false] using hne)
              (ht.mp hT) (he.mp hE)
          · intro h
            cases h with
            | ifBoth _ _ _ hne hT hE =>
              refine ⟨⟨?_, ht.mpr hT⟩, he.mpr hE⟩
              simpa [List.isEmpty_eq_false] using hne
        | assignment n v =>
          simp only [checkStmtReturns, Bool.false_eq_true, false_iff]
          intro h
          cases h
        | printStmt ex =>
          simp only [checkStmtReturns, Bool.false_eq_true, false_iff]
          intro h
          cases h
        | whileStmt c b =>
          simp only [checkStmtReturns, Bool.false_eq_true, false_iff]
          intro h
          cases h
        | altIf =>
          simp only [checkStmtReturns, Bool.false_eq_true, false_iff]
          intro h
          cases h
        | altWhile =>
          simp only [checkStmtReturns, Bool.false_eq_true, false_iff]
          intro h
          cases h
        | altReturn =>
          simp only [checkStmtReturns, Bool.false_eq_true, false_iff]
          intro h
          cases h
        | altPrint =>
          simp only [checkStmtReturns, Bool.false_eq_true, false_iff]
          intro h
          cases h
        | altAssignment =>
          simp only [checkStmtReturns, Bool.false_eq_true, false_iff]
          intro h
          cases h

/-- The source's `checkPathsReturn` decides exactly the spec's
`all_paths_return` relation. -/
theorem checkPathsReturn_iff (items : List Item) :
    checkPathsReturn items = true ↔ BlockAnyReturns items :=
  (checkPathsReturn_iff_aux (sizeOf items)).1 items (Nat.le_refl _)

/-- C2: for a function whose declared return type is not `Unit`, whose
parameters insert cleanly and whose body analysis succeeds, the walker
raises `missing_return` exactly when the syntactic `checkPathsReturn` check
fails on the body; and `checkPathsReturn` holds exactly when some item of
the block returns, where a `return` returns, an if with both branches
returns iff both branches recursively return, and nothing else (in
particular no `while`) returns. -/
theorem missing_return_gate (σ : AnalyzerState) (n : String)
    (ps : List (String × DataType)) (ret : DataType) (body : List Item)
    (f : Frame) (σ₁ : AnalyzerState)
    (hret : ret ≠ DataType.IOTA)
    (hps : insertParams [] ps = .ok f)
    (hbody : analyzeBlock (funcEntryState σ n ret f) body false = .ok σ₁) :
    ((analyzeFunctionDecl σ n ps ret body =
        .err (.semantic .MISSING_RETURN (.function n)) σ₁) ↔
      checkPathsReturn body = false) ∧
    (∀ items : List Item,
      checkPathsReturn items = true ↔ BlockAnyReturns items) := by
  refine ⟨?_, checkPathsReturn_iff⟩
  unfold analyzeFunctionDecl
  rw [hps]
  dsimp only
  rw [hbody]
  dsimp only
  rw [if_neg hret]
  cases hc : checkPathsReturn body with
  | true => simp
  | false => simp

/-- C2 witness: a function with return type `int` and an empty body — the
body analyzes cleanly, `checkPathsReturn` fails, and the walker raises
`missing_return`. -/
theorem missing_return_gate_witness :
    analyzeFunctionDecl initialState "f" [] DataType.INT [] =
      .err (.semantic .MISSING_RETURN (.function "f"))
        (funcEntryState initialState "f" DataType.INT []) := by
  have h := missing_return_gate initialState "f" [] DataType.INT [] []
    (funcEntryState initialState "f" DataType.INT [])
    (by decide) rfl (by decide)
  exact h.1.mpr (by decide)

/-- Running the call-argument loop when every argument types successfully:
with no incompatible pair the accumulated list is returned; at the first
incompatible index `i` the loop throws `invalid_signature` carrying the full
expected list and the accumulator extended only through index `i`. -/
theorem analyzeCallArgs_run (scopes : List Frame) (fname : String)
    (expAll : List DataType) :
    ∀ (ps : List DataType) (args : List Expr) (ts acc : List DataType),
      argTypesList scopes args = .ok ts →
      ps.length = args.length →
      analyzeCallArgs scopes fname expAll ps args acc =
        match firstIncompat ps ts with
        | Option.none => .ok (acc ++ ts)
        | some i => .error (.semantic .INVALID_SIGNATURE
            (.signature fname expAll (acc ++ ts.take (i + 1)))) := by
  intro ps
  induction ps with
  | nil =>
    intro args ts acc hts hlen
    cases args with
    | nil =>
      simp only [argTypesList] at hts
      injection hts with h
      subst h
      simp [analyzeCallArgs, firstIncompat]
    | cons a rest => exact absurd hlen (by simp)
  | cons p ps' ih =>
    intro args ts acc hts hlen
    cases args with
    | nil => exact absurd hlen (by simp)
    | cons a rest =>
      simp only [argTypesList, Bind.bind, Except.bind] at hts
      cases ha : analyzeExpr scopes a with
      | error e => rw [ha] at hts; exact absurd hts (by simp)
      | ok t =>
        rw [ha] at hts
        cases hrest : argTypesList scopes rest with
        | error e => rw [hrest] at hts; exact absurd hts (by simp)
        | ok ts' =>
          rw [hrest] at hts
          injection hts with h
          subst h
          simp only [analyzeCallArgs, Bind.bind, Except.bind, ha]
          by_cases hc : isAssignmentCompatible p t = true
          · simp only [hc, Bool.not_true, Bool.false_eq_true, if_false]
            rw [ih rest ts' (acc ++ [t]) hrest (by simpa using hlen)]
            simp only [firstIncompat, hc, if_true]
            cases firstIncompat ps' ts' with
            | none => simp
            | some i => simp [List.take_succ_cons]
          · simp only [Bool.not_eq_true] at hc
            simp [firstIncompat, hc, List.take_succ_cons]

/-- C4 (amended): for a call resolving to a function symbol with a matching
argument count, when every argument types successfully and index `i` is the
first whose type is rejected by the corresponding parameter type, the walker
raises `invalid_signature` whose context carries the full expected parameter
type list but only the argument types through index `i` — a strict
initial segment of the full actual type list when `i` is not the last
index. -/
theorem invalid_signature_carries_arg_types_through_failure
    (scopes : List Frame) (fname : String) (sym : SymbolInfo)
    (args : List Expr) (ts : List DataType) (i : Nat)
    (hlook : lookupChain scopes fname = some sym)
    (hkind : sym.kind = SymbolKind.FUNCTION)
    (hlen : args.length = sym.paramTypes.length)
    (hts : argTypesList scopes args = .ok ts)
    (hfirst : firstIncompat sym.paramTypes ts = some i) :
    analyzeExpr scopes (.call fname args) =
      .error (.semantic .INVALID_SIGNATURE
        (.signature fname sym.paramTypes (ts.take (i + 1)))) := by
  simp only [analyzeExpr, hlook]
  rw [if_neg (by simp [hkind])]
  rw [if_neg (by simp [hlen])]
  rw [analyzeCallArgs_run scopes fname sym.paramTypes sym.paramTypes args
    ts [] hts hlen.symm]
  rw [hfirst]
  rfl

/-- C4 counterexample: calling `g(a: int, b: bool)` as `g(2.0, 1)` fails at
the first argument; the raised `invalid_signature` context carries only
`[Float]`, not the full actual argument type list `[Float, Int]` the claim
promises. -/
theorem invalid_signature_counterexample :
    analyzeExpr
        gScopes
        (.call "g" [Expr.floatLit, Expr.intLit 1]) =
      .error (.semantic .INVALID_SIGNATURE
        (.signature "g" [DataType.INT, DataType.BOOL] [DataType.FLOAT])) ∧
    argTypesList
        gScopes
        [Expr.floatLit, Expr.intLit 1] =
      .ok [DataType.FLOAT, DataType.INT] ∧
    SemanticErrorContext.signature "g" [DataType.INT, DataType.BOOL]
        [DataType.FLOAT] ≠
      SemanticErrorContext.signature "g" [DataType.INT, DataType.BOOL]
        [DataType.FLOAT, DataType.INT] := by
  refine ⟨rfl, rfl, by decide⟩

/-- C4 witness: instantiating the amended theorem on the `g(2.0, 1)` call,
with failure at index 0 of 2 arguments, yields the `[Float]` prefix. -/
theorem invalid_signature_carries_arg_types_witness :
    analyzeExpr
        gScopes
        (.call "g" [Expr.floatLit, Expr.intLit 1]) =
      .error (.semantic .INVALID_SIGNATURE
        (.signature "g" [DataType.INT, DataType.BOOL]
          ([DataType.FLOAT, DataType.INT].take (0 + 1)))) :=
  invalid_signature_carries_arg_types_through_failure
    gScopes
    "g"
    gSym
    [Expr.floatLit, Expr.intLit 1] [DataType.FLOAT, DataType.INT] 0
    rfl rfl rfl rfl rfl

/-- C7 (amended): on the normal exit path, function-declaration analysis
restores the scope chain and all four context fields to their entry values,
and block analysis with a fresh scope restores the scope chain; the
diagnostic path performs no restore (see the counterexample). -/
theorem restore_on_normal_exit :
    (∀ (σ : AnalyzerState) (n : String) (ps : List (String × DataType))
      (ret : DataType) (body : List Item) (σ' : AnalyzerState),
      analyzeFunctionDecl σ n ps ret body = .ok σ' →
      σ'.scopes = σ.scopes ∧ σ'.currentFunction = σ.currentFunction ∧
      σ'.currentFunctionReturnType = σ.currentFunctionReturnType ∧
      σ'.hasReturn = σ.hasReturn ∧ σ'.isUnreachable = σ.isUnreachable) ∧
    (∀ (σ : AnalyzerState) (items : List Item) (σ' : AnalyzerState),
      analyzeBlock σ items true = .ok σ' → σ'.scopes = σ.scopes) := by
  constructor
  · intro σ n ps ret body σ' h
    unfold analyzeFunctionDecl at h
    split at h
    · simp at h
    · split at h
      · simp at h
      · split at h
        · injection h with h'
          subst h'
          simp [funcRestore]
        · split at h
          · injection h with h'
            subst h'
            simp [funcRestore]
          · simp at h
  · intro σ items σ' h
    unfold analyzeBlock at h
    dsimp only at h
    split at h
    · simp at h
    · simp only [if_true] at h
      injection h with h'
      subst h'
      rfl

/-- C7 counterexample: a function declaration with a duplicate parameter
name throws while the child scope is pushed and the context fields replaced;
the error-path state keeps the pushed scope and the replaced function name,
so the claim that every exit path restores them is false. -/
theorem no_restore_on_diagnostic_counterexample :
    analyzeFunctionDecl initialState "f"
        [("a", DataType.INT), ("a", DataType.INT)] DataType.IOTA [] =
      .err (.semantic .REDECLARED_IDENTIFIER (.identifier "a"))
        (funcEntryState initialState "f" DataType.IOTA
          [("a", SymbolInfo.mkVar "a" DataType.INT SymbolKind.VARIABLE
            false)]) ∧
    (funcEntryState initialState "f" DataType.IOTA
        [("a", SymbolInfo.mkVar "a" DataType.INT SymbolKind.VARIABLE
          false)]).scopes ≠ initialState.scopes ∧
    (funcEntryState initialState "f" DataType.IOTA
        [("a", SymbolInfo.mkVar "a" DataType.INT SymbolKind.VARIABLE
          false)]).currentFunction ≠ initialState.currentFunction := by
  refine ⟨rfl, by decide, by decide⟩

/-- C7 witness: a trivial function declaration exits normally with the
walker state restored to its entry value. -/
theorem restore_on_normal_exit_witness :
    analyzeFunctionDecl initialState "f" [] DataType.IOTA [] =
      .ok initialState ∧
    initialState.scopes = initialState.scopes ∧
    initialState.currentFunction = initialState.currentFunction ∧
    initialState.currentFunctionReturnType =
      initialState.currentFunctionReturnType ∧
    initialState.hasReturn = initialState.hasReturn ∧
    initialState.isUnreachable = initialState.isUnreachable :=
  ⟨by decide, restore_on_normal_exit.1 initialState "f" [] DataType.IOTA []
    initialState (by decide)⟩

/-- Pass 1 never removes or changes an entry already in the global frame. -/
theorem pass1_preserves (n : String) (s : SymbolInfo) :
    ∀ (decls : List Item) (g0 g : Frame),
      pass1 decls g0 = .ok g → lookupLocal g0 n = some s →
      lookupLocal g n = some s := by
  intro decls
  induction decls with
  | nil =>
    intro g0 g h hl
    simp only [pass1] at h
    injection h with h'
    subst h'
    exact hl
  | cons d rest ih =>
    intro g0 g h hl
    cases d with
    | funcDecl nm ps ret body =>
      simp only [pass1] at h
      by_cases hex : existsLocal g0 nm = true
      · rw [if_pos hex] at h
        split at h
        · split at h <;> simp at h
        · simp at h
      · rw [if_neg hex] at h
        by_cases hnm : nm = n
        · subst hnm
          rw [lookupLocal_eq_none_of_not_existsLocal g0 nm
            (Bool.not_eq_true _ ▸ hex)] at hl
          exact absurd hl (by simp)
        · refine ih _ _ h ?_
          rw [lookupLocal_cons]
          simp [hnm, hl]
    | varDecl c nm t init =>
      simp only [pass1] at h
      exact ih _ _ h hl
    | stmt st =>
      simp only [pass1] at h
      exact ih _ _ h hl

/-- When pass 1 succeeds, every top-level function declaration's name is
bound in the resulting global frame to a `FUNCTION` symbol carrying the
declaration's parameter types and return type. -/
theorem pass1_hoists (n : String) (ps : List (String × DataType))
    (ret : DataType) (body : List Item) :
    ∀ (decls : List Item) (g0 g : Frame),
      pass1 decls g0 = .ok g →
      Item.funcDecl n ps ret body ∈ decls →
      ∃ s, lookupLocal g n = some s ∧ s.kind = SymbolKind.FUNCTION ∧
        s.paramTypes = ps.map Prod.snd ∧ s.returnType = ret := by
  intro decls
  induction decls with
  | nil =>
    intro g0 g h hmem
    exact absurd hmem (List.not_mem_nil _)
  | cons d rest ih =>
    intro g0 g h hmem
    rcases List.mem_cons.mp hmem with heq | hmem'
    · subst heq
      simp only [pass1] at h
      by_cases hex : existsLocal g0 n = true
      · rw [if_pos hex] at h
        split at h
        · split at h <;> simp at h
        · simp at h
      · rw [if_neg hex] at h
        refine ⟨funcSymbol n ps ret,
          pass1_preserves n (funcSymbol n ps ret) rest _ g h ?_,
          rfl, rfl, rfl⟩
        rw [lookupLocal_cons]
        simp
    · cases d with
      | funcDecl nm ps' ret' body' =>
        simp only [pass1] at h
        by_cases hex : existsLocal g0 nm = true
        · rw [if_pos hex] at h
          split at h
          · split at h <;> simp at h
          · simp at h
        · rw [if_neg hex] at h
          exact ih _ _ h hmem'
      | varDecl c nm t init =>
        simp only [pass1] at h
        exact ih _ _ h hmem'
      | stmt st =>
        simp only [pass1] at h
        exact ih _ _ h hmem'

/-- Pass 1 binds no name beyond the hoisted function names: a name absent
from the initial frame and not among the top-level function names is still
absent after pass 1 — in particular, top-level variables are not hoisted. -/
theorem pass1_hoists_only_functions (n : String) :
    ∀ (decls : List Item) (g0 g : Frame),
      pass1 decls g0 = .ok g → lookupLocal g0 n = Option.none →
      ¬ n ∈ topFuncNames decls → lookupLocal g n = Option.none := by
  intro decls
  induction decls with
  | nil =>
    intro g0 g h hl hmem
    simp only [pass1] at h
    injection h with h'
    subst h'
    exact hl
  | cons d rest ih =>
    intro g0 g h hl hmem
    cases d with
    | funcDecl nm ps ret body =>
      simp only [topFuncNames, List.mem_cons, not_or] at hmem
      simp only [pass1] at h
      by_cases hex : existsLocal g0 nm = true
      · rw [if_pos hex] at h
        split at h
        · split at h <;> simp at h
        · simp at h
      · rw [if_neg hex] at h
        refine ih _ _ h ?_ hmem.2
        rw [lookupLocal_cons, if_neg (fun hh => hmem.1 hh.symm)]
        exact hl
    | varDecl c nm t init =>
      simp only [pass1] at h
      simp only [topFuncNames] at hmem
      exact ih _ _ h hl hmem
    | stmt st =>
      simp only [pass1] at h
      simp only [topFuncNames] at hmem
      exact ih _ _ h hl hmem

/-- An identifier absent from the whole scope chain raises
`undeclared_identifier`. -/
theorem ident_undeclared (scopes : List Frame) (n : String)
    (h : lookupChain scopes n = Option.none) :
    analyzeExpr scopes (.ident n) =
      .error (.semantic .UNDECLARED_IDENTIFIER (.identifier n)) := by
  simp [analyzeExpr, h]

/-- C6: in the two-pass program walk, (i) pass 1 hoists every top-level
function name into the global frame with a `FUNCTION` symbol before pass 2
analyzes any body, and the bodies are then walked with that frame as the
global scope; (ii) pass 1 binds nothing else, so a top-level variable's
name is still unbound after hoisting; (iii) referencing a name that
the scope chain does not yet bind raises `undeclared_identifier`; and
(iv) concretely, a program whose first function reads a top-level variable
declared after it is rejected with `undeclared_identifier`. -/
theorem hoisting_two_pass :
    (∀ (decls : List Item) (g : Frame) (n : String)
      (ps : List (String × DataType)) (ret : DataType) (body : List Item),
      pass1 decls [] = .ok g →
      Item.funcDecl n ps ret body ∈ decls →
      ∃ s, lookupLocal g n = some s ∧ s.kind = SymbolKind.FUNCTION ∧
        s.paramTypes = ps.map Prod.snd ∧ s.returnType = ret) ∧
    (∀ (decls : List Item) (g : Frame) (n : String),
      pass1 decls [] = .ok g → ¬ n ∈ topFuncNames decls →
      lookupLocal g n = Option.none) ∧
    (∀ (scopes : List Frame) (n : String),
      lookupChain scopes n = Option.none →
      analyzeExpr scopes (.ident n) =
        .error (.semantic .UNDECLARED_IDENTIFIER (.identifier n))) ∧
    (∀ (decls : List Item) (g : Frame),
      pass1 decls [] = .ok g →
      analyzeProgram decls = pass2 { initialState with scopes := [g] }
        decls) ∧
    analyzeProgram
        [Item.funcDecl "f" [] DataType.INT
          [Item.stmt (Stmt.ret (some (Expr.ident "x")))],
         Item.varDecl false "x" DataType.INT (some (Expr.intLit 0))] =
      .err (.semantic .UNDECLARED_IDENTIFIER (.identifier "x"))
        (funcEntryState
          { initialState with scopes := [[("f", funcSymbol "f" []
            DataType.INT)]] }
          "f" DataType.INT []) := by
  refine ⟨?_, ?_, ident_undeclared, ?_, ?_⟩
  · intro decls g n ps ret body h hmem
    exact pass1_hoists n ps ret body decls [] g h hmem
  · intro decls g n h hmem
    exact pass1_hoists_only_functions n decls [] g h rfl hmem
  · intro decls g h
    unfold analyzeProgram
    rw [h]
  · decide

/-- C6 witness: in a program declaring `f` before `g`, where `f`'s body
calls `g`, hoisting makes `g` resolvable while analyzing `f` — the whole
program is accepted — and a top-level variable's name is not hoisted. -/
theorem hoisting_two_pass_witness :
    (∃ s, lookupLocal
        [("g", funcSymbol "g" [] DataType.INT),
          ("f", funcSymbol "f" [] DataType.INT)]
        "g" = some s ∧ s.kind = SymbolKind.FUNCTION ∧
        s.paramTypes = ([] : List (String × DataType)).map Prod.snd ∧
        s.returnType = DataType.INT) ∧
    lookupLocal
        [("g", funcSymbol "g" [] DataType.INT),
          ("f", funcSymbol "f" [] DataType.INT)]
        "x" = Option.none := by
  constructor
  · exact hoisting_two_pass.1
      [Item.funcDecl "f" [] DataType.INT
        [Item.stmt (Stmt.ret (some (Expr.call "g" [])))],
       Item.funcDecl "g" [] DataType.INT
        [Item.stmt (Stmt.ret (some (Expr.intLit 0)))]]
      _ "g" [] DataType.INT
      [Item.stmt (Stmt.ret (some (Expr.intLit 0)))]
      rfl (by simp)
  · exact hoisting_two_pass.2.1
      [Item.funcDecl "f" [] DataType.INT
        [Item.stmt (Stmt.ret (some (Expr.call "g" [])))],
       Item.funcDecl "g" [] DataType.INT
        [Item.stmt (Stmt.ret (some (Expr.intLit 0)))]]
      _ "x" rfl (by decide)

end SemAn
